import Mathlib

/-!
Aegisub audio subsystem: RAM audio cache and horizon-plot renderer buffer.

Shallow embedding of

* `libaegisub/audio/provider_ram.cpp` : `RAMAudioProvider` (constructor, decoder
  thread body, destructor, `FillBuffer`);
* `src/audio_renderer_horizonplot.cpp` : the buffer sizing and the per-pixel read of
  `AudioHorizonplotRenderer::Render`.

Conventions of the embedding.

* Sample counts and sample positions (`int64_t`, `size_t`) are `Int`; channel and
  bytes-per-sample counts (`int`, never negative) are `Nat`.  Every statement below is
  about non-negative sample counts, where no conversion between `int64_t` and `size_t`
  changes a value; arithmetic is done in unbounded integers.
* A `char *` is modelled by the memory seen through it: a function from the byte offset
  relative to the pointer to the byte stored there.  Offsets outside the allocated block
  are still offsets of that function; whether an offset lies inside the block is a
  separate, explicit question (`inBuffer`).
* The decoder thread is a small-step machine with one step per shared-memory action of
  the loop body; the destructor is a second small-step machine; a schedule interleaves
  the two.
-/

namespace Aegisub

/-- One `char` of audio data. -/
abbrev Byte := Fin 256

/-- The error type thrown by audio providers (`agi::AudioProviderError`). -/
structure AudioProviderError where
  msg : String
deriving DecidableEq, Repr

/-- Modelled from the spec: the abstract `agi::AudioProvider` interface (its declaration is
in `libaegisub/audio/provider.h`).  A Sample Source exposes its total sample count, channel
count and bytes per sample, and a decode operation `GetAudio start count` that produces the
bytes of samples `[start, start+count)`. -/
structure AudioProvider where
  num_samples : Int
  channels : Nat
  bytes_per_sample : Nat
  GetAudio : Int → Int → List Byte

namespace AudioProvider

/-- The source's decode stores exactly `count × channels × bytes_per_sample` bytes. -/
def ExactLength (src : AudioProvider) : Prop :=
  ∀ s n : Int, 0 ≤ n →
    ((src.GetAudio s n).length : Int) = n * src.channels * src.bytes_per_sample

/-- Chunk decodes agree with the whole-stream decode: the bytes of `GetAudio s n` are the
bytes of `GetAudio 0 num_samples` at the corresponding offsets. -/
def ChunksAgree (src : AudioProvider) : Prop :=
  ∀ s n : Int, 0 ≤ s → 0 ≤ n → s + n ≤ src.num_samples →
    ∀ k : Nat, (k : Int) < n * src.channels * src.bytes_per_sample →
      (src.GetAudio s n)[k]? =
        (src.GetAudio 0 src.num_samples)[(s * src.channels * src.bytes_per_sample).toNat + k]?

/-- A mock source whose byte at absolute stream offset `a` is `pattern a`. -/
def ofPattern (num_samples : Int) (channels bytes_per_sample : Nat) (pattern : Int → Byte) :
    AudioProvider where
  num_samples := num_samples
  channels := channels
  bytes_per_sample := bytes_per_sample
  GetAudio := fun s n =>
    (List.range (n * channels * bytes_per_sample).toNat).map
      (fun (k : Nat) => pattern (s * channels * bytes_per_sample + (k : Int)))

end AudioProvider

/-- Program counter of the decoder thread started by the constructor
(`provider_ram.cpp` lines 51-59). -/
inductive DecoderPc where
  /-- About to evaluate `i < num_samples`, the `std::min` and `if (cancelled) break;`. -/
  | loopHead
  /-- About to call `source->GetAudio(&buffer[i * bytes_per_sample * channels], i, actual_read)`. -/
  | getAudio
  /-- About to execute `decoded_samples += actual_read` and the loop increment. -/
  | publish
  /-- The thread function has returned. -/
  | exited
  /-- The thread has stored through `buffer` after `delete buffer; buffer = NULL;`:
  undefined behaviour, after which no step of the thread is defined.  It never returns. -/
  | faulted
deriving DecidableEq, Repr

/-- Program counter of `~RAMAudioProvider` (`provider_ram.cpp` lines 62-69). -/
inductive DtorPc where
  /-- Destructor not entered, or about to execute `cancelled = true`. -/
  | setCancelled
  /-- About to execute `if (buffer) { delete buffer; buffer = NULL; }`. -/
  | releaseBuffer
  /-- About to execute `decoder.join()`. -/
  | join
  /-- Destructor returned. -/
  | finished
deriving DecidableEq, Repr

/-- State of a `RAMAudioProvider`, together with the locals of its decoder thread, the
position of its destructor, and two history variables. -/
structure RAMAudioProvider where
  /-- The wrapped provider (`AudioProviderWrapper::source`). -/
  source : AudioProvider
  /-- Metadata copied from the source by `AudioProviderWrapper`. -/
  num_samples : Int
  channels : Nat
  bytes_per_sample : Nat
  /-- Number of samples published by the decoder (`std::atomic<int64_t>`). -/
  decoded_samples : Int
  cancelled : Bool
  /-- Memory seen through `char *buffer`, indexed by byte offset. -/
  buffer : Int → Byte
  /-- Whether `delete buffer` has been executed. -/
  released : Bool
  /-- Decoder thread: program counter and the locals `i`, `actual_read`. -/
  pc : DecoderPc
  i : Int
  actual_read : Int
  /-- Destructor position. -/
  dtor : DtorPc
  /-- History: the `(start, count)` of every `source->GetAudio` call made so far. -/
  requests : List (Int × Int)
  /-- History: the decoder stored through `buffer` after `delete buffer`. -/
  wroteAfterRelease : Bool

/-- Store `data` at byte offset `off` of the memory `mem`. -/
def writeBytes (mem : Int → Byte) (off : Int) (data : List Byte) : Int → Byte :=
  fun a => if off ≤ a ∧ a < off + data.length then data.getD (a - off).toNat 0 else mem a

/-- What `memcpy(dst, src + off, n)` stores into `dst`. -/
def memcpy (mem : Int → Byte) (off : Int) (n : Nat) : List Byte :=
  (List.range n).map (fun (k : Nat) => mem (off + (k : Int)))

/-- The byte offsets `memcpy(dst, src + off, n)` reads. -/
def memcpyReads (off : Int) (n : Nat) : List Int :=
  (List.range n).map (fun (k : Nat) => off + (k : Int))

namespace RAMAudioProvider

/-- Size in bytes of the block allocated by the constructor:
`GetNumSamples() * GetChannels() * GetBytesPerSample()`. -/
def bufferSize (p : RAMAudioProvider) : Int :=
  p.source.num_samples * p.source.channels * p.source.bytes_per_sample

/-- Offset `a` lies inside the allocated block. -/
def inBuffer (p : RAMAudioProvider) (a : Int) : Prop :=
  0 ≤ a ∧ a < p.bufferSize

instance (p : RAMAudioProvider) (a : Int) : Decidable (p.inBuffer a) := by
  unfold inBuffer; infer_instance

end RAMAudioProvider

/-- Observable effects of running the constructor. -/
inductive CtorEvent where
  /-- A `new char[bytes]` was attempted. -/
  | allocate (bytes : Int)
  /-- The decoder `std::thread` was started. -/
  | launchDecoder
  /-- A decode request was issued to the source. -/
  | decode (start count : Int)
deriving DecidableEq, Repr

/-- The state in which a successful constructor returns (lines 40-59), given the fresh
block: `decoded_samples = 0`, the flag clear, and the decoder thread at its loop head with
`i = 0` and `actual_read = 2<<10`. -/
def RAMAudioProvider.fresh (block : Int → Byte) (src : AudioProvider) : RAMAudioProvider where
  source := src
  num_samples := src.num_samples
  channels := src.channels
  bytes_per_sample := src.bytes_per_sample
  decoded_samples := 0
  cancelled := false
  buffer := block
  released := false
  pc := DecoderPc.loopHead
  i := 0
  actual_read := 2 <<< 10
  dtor := DtorPc.setCancelled
  requests := []
  wroteAfterRelease := false

/-- Constructor `RAMAudioProvider::RAMAudioProvider` (lines 39-60).  `alloc n` stands for
`new char[n]`: it returns the (uninitialised) memory of the fresh block, or `none` when
`std::bad_alloc` is thrown.  The result lists the effects performed and either the state in
which the constructor returns, the decoder thread sitting at its loop head with `i = 0`
and `actual_read = 2<<10`, or the exception thrown to the caller. -/
def RAMAudioProvider.construct (alloc : Int → Option (Int → Byte)) (src : AudioProvider) :
    List CtorEvent × Except AudioProviderError RAMAudioProvider :=
  let size := src.num_samples * src.channels * src.bytes_per_sample
  match alloc size with
  | none =>
    ([CtorEvent.allocate size],
      Except.error ⟨"Not enough memory available to cache in RAM"⟩)
  | some block =>
    ([CtorEvent.allocate size, CtorEvent.launchDecoder],
      Except.ok (RAMAudioProvider.fresh block src))

/-- One step of the decoder thread (lines 52-58).

* `loopHead`: the loop test `i < num_samples`; when it holds,
  `actual_read = std::min<int64_t>(actual_read, num_samples - i)` and then
  `if (cancelled) break;`.
* `getAudio`: `source->GetAudio(&buffer[i * bytes_per_sample * channels], i, actual_read)`.
  While the block is allocated the decoded chunk is stored at that offset.  Once the
  destructor has executed `delete buffer; buffer = NULL;` the call is still made, but its
  store goes through a deleted (null) pointer: the thread is `faulted`.
* `publish`: `decoded_samples += actual_read` followed by the increment `i += actual_read`.
-/
def decoderStep (p : RAMAudioProvider) : RAMAudioProvider :=
  match p.pc with
  | DecoderPc.loopHead =>
    if p.i < p.num_samples then
      let n := min p.actual_read (p.num_samples - p.i)
      if p.cancelled then { p with actual_read := n, pc := DecoderPc.exited }
      else { p with actual_read := n, pc := DecoderPc.getAudio }
    else { p with pc := DecoderPc.exited }
  | DecoderPc.getAudio =>
    if p.released then
      { p with
        requests := p.requests ++ [(p.i, p.actual_read)]
        wroteAfterRelease := true
        pc := DecoderPc.faulted }
    else
      { p with
        buffer := writeBytes p.buffer (p.i * p.bytes_per_sample * p.channels)
                    (p.source.GetAudio p.i p.actual_read)
        requests := p.requests ++ [(p.i, p.actual_read)]
        pc := DecoderPc.publish }
  | DecoderPc.publish =>
    { p with
      decoded_samples := p.decoded_samples + p.actual_read
      i := p.i + p.actual_read
      pc := DecoderPc.loopHead }
  | DecoderPc.exited => p
  | DecoderPc.faulted => p

/-- Run the decoder thread alone for `n` steps. -/
def runDecoder : Nat → RAMAudioProvider → RAMAudioProvider
  | 0, p => p
  | n + 1, p => runDecoder n (decoderStep p)

/-- The store `cancelled = true` (first statement of the destructor). -/
def setCancelled (p : RAMAudioProvider) : RAMAudioProvider :=
  { p with cancelled := true }

/-- One step of `~RAMAudioProvider` (lines 63-68).  After a successful constructor `buffer`
is not null, so the guard `if (buffer)` holds and the block is deleted.  `decoder.join()`
blocks (the state does not change) until the decoder thread has exited; it never returns
when the thread is `faulted`. -/
def destructorStep (p : RAMAudioProvider) : RAMAudioProvider :=
  match p.dtor with
  | DtorPc.setCancelled => { setCancelled p with dtor := DtorPc.releaseBuffer }
  | DtorPc.releaseBuffer => { p with released := true, dtor := DtorPc.join }
  | DtorPc.join => if p.pc = DecoderPc.exited then { p with dtor := DtorPc.finished } else p
  | DtorPc.finished => p

/-- The two threads that touch a cache under destruction. -/
inductive Actor where
  | decoder
  | destructor
deriving DecidableEq, Repr

/-- Run an interleaving: each entry of the schedule lets one thread take one step. -/
def runSchedule : List Actor → RAMAudioProvider → RAMAudioProvider
  | [], p => p
  | Actor.decoder :: rest, p => runSchedule rest (decoderStep p)
  | Actor.destructor :: rest, p => runSchedule rest (destructorStep p)

/-- States reachable from a freshly constructed cache by steps of the fill loop, with the
cancellation flag possibly set at any point. -/
inductive Reachable (src : AudioProvider) : RAMAudioProvider → Prop where
  | init (block : Int → Byte) : Reachable src (RAMAudioProvider.fresh block src)
  | step {p : RAMAudioProvider} : Reachable src p → Reachable src (decoderStep p)
  | cancel {p : RAMAudioProvider} : Reachable src p → Reachable src (setCancelled p)

/-- The byte offsets read by `RAMAudioProvider::FillBuffer(buf, start, count)`. -/
def RAMAudioProvider.FillBufferReads (p : RAMAudioProvider) (start count : Int) : List Int :=
  memcpyReads (start * p.source.channels * p.source.bytes_per_sample)
    (count * p.source.channels * p.source.bytes_per_sample).toNat

/-- Method `RAMAudioProvider::FillBuffer` (lines 72-75): the bytes stored into `buf`.  The body
is a single `memcpy`; it has no failing path. -/
def RAMAudioProvider.FillBuffer (p : RAMAudioProvider) (start count : Int) :
    Except AudioProviderError (List Byte) :=
  Except.ok (memcpy p.buffer (start * p.source.channels * p.source.bytes_per_sample)
    (count * p.source.channels * p.source.bytes_per_sample).toNat)

/-! ## Horizon-plot renderer -/

/-- Conversion of a `double` to an integer type: truncation toward zero. -/
def truncate (x : ℚ) : Int :=
  if 0 ≤ x then ⌊x⌋ else ⌈x⌉

/-- Local `buffer_needed` of `AudioHorizonplotRenderer::Render` (line 71):
`pixel_samples * channels * provider->GetBytesPerSample() + 1` converted to `size_t`. -/
def buffer_needed (pixel_samples : ℚ) (channels bytes_per_sample : Nat) : Int :=
  truncate (pixel_samples * channels * bytes_per_sample + 1)

/-- The sample count `to` passed to `provider->GetAudio` in the pixel loop (lines 89-92):
`(int64_t) pixel_samples`, then `to += to == 0`. -/
def renderTo (pixel_samples : ℚ) : Int :=
  let to_ := truncate pixel_samples
  to_ + (if to_ = 0 then 1 else 0)

/-- Bytes stored into `audio_buffer` by `provider->GetAudio(audio_buffer.get(), from, to)`. -/
def renderBytesWritten (pixel_samples : ℚ) (channels bytes_per_sample : Nat) : Int :=
  renderTo pixel_samples * channels * bytes_per_sample

/-- Loop invariant of the decoder thread of a cache built over `src`. -/
structure DecoderInv (src : AudioProvider) (p : RAMAudioProvider) : Prop where
  source_eq : p.source = src
  num_eq : p.num_samples = src.num_samples
  channels_eq : p.channels = src.channels
  bps_eq : p.bytes_per_sample = src.bytes_per_sample
  i_eq : p.i = p.decoded_samples
  i_nonneg : 0 ≤ p.i
  i_le : p.i ≤ src.num_samples ∨ p.i = 0
  read_pos : 0 < p.actual_read
  read_le : p.actual_read ≤ 2048
  head : p.pc = DecoderPc.loopHead → p.actual_read = 2048 ∨ src.num_samples ≤ p.i
  body : p.pc = DecoderPc.getAudio ∨ p.pc = DecoderPc.publish →
    p.i < src.num_samples ∧ p.actual_read = min 2048 (src.num_samples - p.i)
  not_released : p.released = false

/-- The bytes of the buffer that hold decoded data: those of the published samples and,
between the decode and the publication of a chunk, those of the chunk just decoded. -/
def decodedExtent (p : RAMAudioProvider) : Int :=
  if p.pc = DecoderPc.publish then p.i + p.actual_read else p.decoded_samples

/-- Every buffer byte that holds decoded data equals the byte of the whole-stream decode
at the same offset. -/
def DecodedAgree (src : AudioProvider) (p : RAMAudioProvider) : Prop :=
  ∀ k : Nat, (k : Int) < decodedExtent p * src.channels * src.bytes_per_sample →
    (src.GetAudio 0 src.num_samples)[k]? = some (p.buffer k)

/-- The mock source of the test scenario: every byte encodes its own stream offset
(modulo 256). -/
def mockSource (num_samples : Int) (channels bytes_per_sample : Nat) : AudioProvider :=
  AudioProvider.ofPattern num_samples channels bytes_per_sample
    (fun a => Fin.ofNat (a % 256).toNat)

/-- The state of the destructor race on a one-sample mock source: the decoder has passed
`if (cancelled) break;` with the flag still clear, then the destructor has executed
`cancelled = true` and `delete buffer; buffer = NULL;`.  The chunk is in flight (the decoder
is about to call `GetAudio`), the flag is set, and the destructor is about to join. -/
def releasedInFlight : RAMAudioProvider :=
  runSchedule [Actor.decoder, Actor.destructor, Actor.destructor]
    (RAMAudioProvider.fresh (fun _ => 0) (mockSource 1 1 1))

/-! ## Basic facts about the memory primitives -/

theorem memcpy_length (mem : Int → Byte) (off : Int) (n : Nat) :
    (memcpy mem off n).length = n := by
  simp [memcpy]

theorem memcpy_getElem? (mem : Int → Byte) (off : Int) (n k : Nat) (hk : k < n) :
    (memcpy mem off n)[k]? = some (mem (off + k)) := by
  simp [memcpy, List.getElem?_map, List.getElem?_range hk]

theorem mem_memcpyReads (off : Int) (n : Nat) (a : Int) :
    a ∈ memcpyReads off n ↔ off ≤ a ∧ a < off + n := by
  simp only [memcpyReads, List.mem_map, List.mem_range]
  constructor
  · rintro ⟨k, hk, rfl⟩
    omega
  · rintro ⟨h1, h2⟩
    exact ⟨(a - off).toNat, by omega, by omega⟩

theorem writeBytes_outside (mem : Int → Byte) (off : Int) (data : List Byte) (a : Int)
    (h : a < off ∨ off + data.length ≤ a) : writeBytes mem off data a = mem a := by
  unfold writeBytes
  rw [if_neg]
  omega

theorem writeBytes_inside (mem : Int → Byte) (off : Int) (data : List Byte) (k : Nat)
    (h : k < data.length) : data[k]? = some (writeBytes mem off data (off + k)) := by
  unfold writeBytes
  rw [if_pos (by omega)]
  have : (off + (k : Int) - off).toNat = k := by omega
  rw [this, List.getD_eq_getElem?_getD, List.getElem?_eq_getElem h]
  rfl

/-! ## `FillBuffer` -/

/-- C3: for every buffer content, every `start`, every `count ≥ 0` and every value of
`decoded_samples`, `FillBuffer(buf, start, count)` stores exactly
`count × channels × bytes_per_sample` bytes, namely the buffer bytes at offsets
`start × channels × bytes_per_sample + k`; the result is the same whatever
`decoded_samples` is (no readiness check is made before copying). -/
theorem FillBuffer_copies_requested_range (p : RAMAudioProvider) (start count d : Int)
    (hcount : 0 ≤ count) :
    ∃ out : List Byte,
      RAMAudioProvider.FillBuffer { p with decoded_samples := d } start count = Except.ok out ∧
      RAMAudioProvider.FillBuffer p start count = Except.ok out ∧
      (out.length : Int) = count * p.source.channels * p.source.bytes_per_sample ∧
      ∀ k : Nat, (k : Int) < count * p.source.channels * p.source.bytes_per_sample →
        out[k]? =
          some (p.buffer (start * p.source.channels * p.source.bytes_per_sample + k)) := by
  have hnn : 0 ≤ count * p.source.channels * p.source.bytes_per_sample := by positivity
  refine ⟨memcpy p.buffer (start * p.source.channels * p.source.bytes_per_sample)
    (count * p.source.channels * p.source.bytes_per_sample).toNat, rfl, rfl, ?_, ?_⟩
  · rw [memcpy_length]
    omega
  · intro k hk
    exact memcpy_getElem? _ _ _ _ (by omega)

/-- Witness for C3: a one-sample, two-byte cache read in full, with `decoded_samples`
overwritten by 5. -/
theorem FillBuffer_copies_requested_range_witness :
    (0 : Int) ≤ 1 ∧
    ∃ out : List Byte,
      RAMAudioProvider.FillBuffer
        { RAMAudioProvider.fresh (fun _ => 3) (AudioProvider.ofPattern 1 1 2 (fun _ => 0))
          with decoded_samples := 5 } 0 1 = Except.ok out ∧
      RAMAudioProvider.FillBuffer
        (RAMAudioProvider.fresh (fun _ => 3) (AudioProvider.ofPattern 1 1 2 (fun _ => 0)))
        0 1 = Except.ok out ∧
      (out.length : Int) = 1 * (1 : Nat) * (2 : Nat) ∧
      ∀ k : Nat, (k : Int) < 1 * (1 : Nat) * (2 : Nat) →
        out[k]? = some ((fun _ => (3 : Byte)) (0 * ((1 : Nat) : Int) * ((2 : Nat) : Int) + k)) :=
  ⟨by decide,
    FillBuffer_copies_requested_range
      (RAMAudioProvider.fresh (fun _ => 3) (AudioProvider.ofPattern 1 1 2 (fun _ => 0)))
      0 1 5 (by decide)⟩

/-- C4, refuted as stated: on a one-sample, one-byte cache the request `start = 0`,
`count = 2` reaches past the total sample count, yet `FillBuffer` signals nothing: it
returns two bytes, and among the offsets it reads is offset 1, outside the one-byte
buffer. -/
theorem FillBuffer_past_end_is_not_rejected :
    (0 : Int) + 2 >
      (RAMAudioProvider.fresh (fun _ => 0) (mockSource 1 1 1)).source.num_samples ∧
    RAMAudioProvider.FillBuffer
      (RAMAudioProvider.fresh (fun _ => 0) (mockSource 1 1 1)) 0 2 = Except.ok [0, 0] ∧
    (¬ ∃ e, RAMAudioProvider.FillBuffer
      (RAMAudioProvider.fresh (fun _ => 0) (mockSource 1 1 1)) 0 2 = Except.error e) ∧
    (1 : Int) ∈ RAMAudioProvider.FillBufferReads
      (RAMAudioProvider.fresh (fun _ => 0) (mockSource 1 1 1)) 0 2 ∧
    ¬ (RAMAudioProvider.fresh (fun _ => 0) (mockSource 1 1 1)).inBuffer 1 := by
  refine ⟨by decide, rfl, ?_, by decide, by decide⟩
  rintro ⟨e, he⟩
  simp [RAMAudioProvider.FillBuffer] at he

/-- C4, amended: `FillBuffer` makes no range check and never signals an error, whatever the
request; and for every request with `0 ≤ start`, `0 ≤ count` and
`start + count ≤ total_samples` every byte it reads lies inside the
`total_samples × channels × bytes_per_sample` buffer. -/
theorem FillBuffer_never_rejects (p : RAMAudioProvider) (start count : Int) :
    (∀ e, RAMAudioProvider.FillBuffer p start count ≠ Except.error e) ∧
    (0 ≤ start → 0 ≤ count → start + count ≤ p.source.num_samples →
      ∀ a ∈ RAMAudioProvider.FillBufferReads p start count, p.inBuffer a) := by
  refine ⟨fun e h => by simp [RAMAudioProvider.FillBuffer] at h, ?_⟩
  intro hs hc hr a ha
  rw [RAMAudioProvider.FillBufferReads, mem_memcpyReads] at ha
  have hF : (0 : Int) ≤ (p.source.channels : Int) * p.source.bytes_per_sample := by positivity
  have e1 : start * p.source.channels * p.source.bytes_per_sample
      = start * ((p.source.channels : Int) * p.source.bytes_per_sample) := by ring
  have e2 : count * p.source.channels * p.source.bytes_per_sample
      = count * ((p.source.channels : Int) * p.source.bytes_per_sample) := by ring
  have e3 : p.source.num_samples * p.source.channels * p.source.bytes_per_sample
      = p.source.num_samples * ((p.source.channels : Int) * p.source.bytes_per_sample) := by
    ring
  have h1 : 0 ≤ start * ((p.source.channels : Int) * p.source.bytes_per_sample) :=
    mul_nonneg hs hF
  have h2 : 0 ≤ count * ((p.source.channels : Int) * p.source.bytes_per_sample) :=
    mul_nonneg hc hF
  have h3 := mul_le_mul_of_nonneg_right hr hF
  rw [add_mul] at h3
  unfold RAMAudioProvider.inBuffer RAMAudioProvider.bufferSize
  rw [e1, e2] at ha
  rw [e3]
  omega

/-- Witness for the amended C4: the in-range request `start = 0`, `count = 1` on a
one-sample cache. -/
theorem FillBuffer_never_rejects_witness :
    ((0 : Int) ≤ 0 ∧ (0 : Int) ≤ 1 ∧ (0 : Int) + 1 ≤ 1) ∧
    ∀ a ∈ RAMAudioProvider.FillBufferReads
        (RAMAudioProvider.fresh (fun _ => 0) (AudioProvider.ofPattern 1 1 1 (fun _ => 0))) 0 1,
      (RAMAudioProvider.fresh (fun _ => 0)
        (AudioProvider.ofPattern 1 1 1 (fun _ => 0))).inBuffer a :=
  ⟨by decide,
    (FillBuffer_never_rejects
      (RAMAudioProvider.fresh (fun _ => 0) (AudioProvider.ofPattern 1 1 1 (fun _ => 0)))
      0 1).2 (by decide) (by decide) (by decide)⟩

/-! ## Constructor -/

/-- C6: the constructor throws the `AudioProviderError` "Not enough memory available to
cache in RAM" if and only if `new char[total_samples × channels × bytes_per_sample]` fails,
and it throws no other error; the exception is the constructor's own result, and when it is
thrown the only effect performed is the failed allocation: no decoder thread is launched and
no decode request is made on the source. -/
theorem construct_fails_iff_allocation_fails (alloc : Int → Option (Int → Byte))
    (src : AudioProvider) :
    ((RAMAudioProvider.construct alloc src).2 =
        Except.error ⟨"Not enough memory available to cache in RAM"⟩ ↔
      alloc (src.num_samples * src.channels * src.bytes_per_sample) = none) ∧
    ((∃ e, (RAMAudioProvider.construct alloc src).2 = Except.error e) ↔
      alloc (src.num_samples * src.channels * src.bytes_per_sample) = none) ∧
    (alloc (src.num_samples * src.channels * src.bytes_per_sample) = none →
      (RAMAudioProvider.construct alloc src).1 =
        [CtorEvent.allocate (src.num_samples * src.channels * src.bytes_per_sample)] ∧
      CtorEvent.launchDecoder ∉ (RAMAudioProvider.construct alloc src).1 ∧
      ∀ s n, CtorEvent.decode s n ∉ (RAMAudioProvider.construct alloc src).1) := by
  unfold RAMAudioProvider.construct
  cases h : alloc (src.num_samples * src.channels * src.bytes_per_sample) <;> simp [h]

/-- Witness for C6: an allocator with a limit of 1000 bytes and a source needing 400000. -/
theorem construct_fails_iff_allocation_fails_witness :
    (fun n : Int => if n ≤ 1000 then some (fun (_ : Int) => (0 : Byte)) else none)
        (100000 * (2 : Nat) * (2 : Nat)) = none ∧
    (RAMAudioProvider.construct
        (fun n : Int => if n ≤ 1000 then some (fun (_ : Int) => (0 : Byte)) else none)
        (AudioProvider.ofPattern 100000 2 2 (fun _ => 0))).1 =
      [CtorEvent.allocate (100000 * (2 : Nat) * (2 : Nat))] :=
  ⟨if_neg (by decide),
    ((construct_fails_iff_allocation_fails
      (fun n : Int => if n ≤ 1000 then some (fun (_ : Int) => (0 : Byte)) else none)
      (AudioProvider.ofPattern 100000 2 2 (fun _ => 0))).2.2 (if_neg (by decide))).1⟩

/-! ## The decoder loop -/

theorem shiftLeft_two_ten : (2 : Int) <<< 10 = 2048 := by decide

theorem decoderInv_fresh (block : Int → Byte) (src : AudioProvider) :
    DecoderInv src (RAMAudioProvider.fresh block src) := by
  constructor <;> simp only [RAMAudioProvider.fresh, shiftLeft_two_ten] <;>
    first | rfl | omega | simp

theorem decoderInv_step {src : AudioProvider} {p : RAMAudioProvider} (h : DecoderInv src p) :
    DecoderInv src (decoderStep p) := by
  obtain ⟨h1, h2, h3, h4, h5, h6, h7, h8, h9, h10, h11, h12⟩ := h
  rcases hpc : p.pc with _ | _ | _ | _ | _
  · simp only [hpc, true_implies] at h10
    unfold decoderStep
    simp only [hpc]
    split_ifs with hlt hc <;> constructor <;> dsimp only <;>
      first | assumption | omega | simp
  · simp only [hpc, true_or, true_implies] at h11
    unfold decoderStep
    simp only [hpc, h12, Bool.false_eq_true, if_false]
    constructor <;> dsimp only <;> first | assumption | omega | simp
  · simp only [hpc, or_true, true_implies] at h11
    unfold decoderStep
    simp only [hpc]
    constructor <;> dsimp only <;> first | assumption | omega | simp
  · unfold decoderStep
    simp only [hpc]
    constructor <;> assumption
  · unfold decoderStep
    simp only [hpc]
    constructor <;> assumption

theorem decoderInv_cancel {src : AudioProvider} {p : RAMAudioProvider} (h : DecoderInv src p) :
    DecoderInv src (setCancelled p) := by
  obtain ⟨h1, h2, h3, h4, h5, h6, h7, h8, h9, h10, h11, h12⟩ := h
  constructor <;> assumption

theorem reachable_decoderInv {src : AudioProvider} {p : RAMAudioProvider} (h : Reachable src p) :
    DecoderInv src p := by
  induction h with
  | init block => exact decoderInv_fresh block src
  | step _ ih => exact decoderInv_step ih
  | cancel _ ih => exact decoderInv_cancel ih

theorem reachable_runDecoder {src : AudioProvider} (n : Nat) :
    ∀ {p : RAMAudioProvider}, Reachable src p → Reachable src (runDecoder n p) := by
  induction n with
  | zero => intro p h; exact h
  | succ n ih => intro p h; exact ih (Reachable.step h)

theorem decoderStep_decoded_le {src : AudioProvider} {p : RAMAudioProvider}
    (h : DecoderInv src p) : p.decoded_samples ≤ (decoderStep p).decoded_samples := by
  have := h.read_pos
  unfold decoderStep
  rcases hpc : p.pc with _ | _ | _ | _ | _ <;> simp only [hpc]
  · split_ifs <;> exact le_refl _
  · split_ifs <;> exact le_refl _
  · show p.decoded_samples ≤ p.decoded_samples + p.actual_read
    omega
  · exact le_refl _
  · exact le_refl _

theorem runDecoder_add (m n : Nat) (p : RAMAudioProvider) :
    runDecoder (m + n) p = runDecoder n (runDecoder m p) := by
  induction m generalizing p with
  | zero => simp [runDecoder]
  | succ m ih =>
    rw [Nat.succ_add]
    exact ih (decoderStep p)

theorem decoderStep_exited {p : RAMAudioProvider} (h : p.pc = DecoderPc.exited) :
    decoderStep p = p := by
  unfold decoderStep
  simp only [h]

theorem runDecoder_exited (n : Nat) {p : RAMAudioProvider} (h : p.pc = DecoderPc.exited) :
    runDecoder n p = p := by
  induction n with
  | zero => rfl
  | succ n ih => rw [runDecoder, decoderStep_exited h, ih]

/-- C2: in every state reachable by the fill loop of a cache over a source with
`num_samples ≥ 0` (started at `decoded_samples = 0`, the cancellation flag possibly set at
any point), `0 ≤ decoded_samples ≤ num_samples`; and neither a step of the loop nor setting
the flag decreases `decoded_samples`. -/
theorem decoded_samples_bounded_and_monotone (src : AudioProvider)
    (hnum : 0 ≤ src.num_samples) (p : RAMAudioProvider) (hp : Reachable src p) :
    0 ≤ p.decoded_samples ∧ p.decoded_samples ≤ src.num_samples ∧
    p.decoded_samples ≤ (decoderStep p).decoded_samples ∧
    p.decoded_samples ≤ (setCancelled p).decoded_samples := by
  have h := reachable_decoderInv hp
  have h1 := h.i_eq
  have h2 := h.i_nonneg
  have h3 := h.i_le
  exact ⟨by omega, by omega, decoderStep_decoded_le h, le_refl _⟩

/-- Witness for C2: a 5000-sample stereo 16-bit source, after seven steps of the loop
(two whole chunks published, the third about to be decoded). -/
theorem decoded_samples_bounded_and_monotone_witness :
    (0 : Int) ≤ 5000 ∧
    (runDecoder 7 (RAMAudioProvider.fresh (fun _ => 0)
      (AudioProvider.ofPattern 5000 2 2 (fun _ => 0)))).decoded_samples = 4096 ∧
    (runDecoder 7 (RAMAudioProvider.fresh (fun _ => 0)
      (AudioProvider.ofPattern 5000 2 2 (fun _ => 0)))).decoded_samples ≤ 5000 :=
  ⟨by decide, by decide,
    (decoded_samples_bounded_and_monotone (AudioProvider.ofPattern 5000 2 2 (fun _ => 0))
      (by decide) _ (reachable_runDecoder 7 (Reachable.init (fun _ => 0)))).2.1⟩

/-- With the cancellation flag set as the loop begins an iteration, that step exits the
loop without a decode request, without touching the buffer and without changing
`decoded_samples`, whether or not the buffer has been released. -/
theorem cancelled_loopHead_exits (p : RAMAudioProvider) (hc : p.cancelled = true)
    (hpc : p.pc = DecoderPc.loopHead) :
    (decoderStep p).pc = DecoderPc.exited ∧
    (decoderStep p).requests = p.requests ∧
    (decoderStep p).buffer = p.buffer ∧
    (decoderStep p).decoded_samples = p.decoded_samples ∧
    (decoderStep p).wroteAfterRelease = p.wroteAfterRelease := by
  unfold decoderStep
  simp only [hpc, hc]
  split_ifs <;> simp

/-- While the buffer is still allocated, a decoder whose flag is set has exited after at
most three of its steps, having issued at most one further decode request (the chunk in
flight) and never having stored through a released buffer. -/
theorem cancelled_decoder_exits_while_allocated (p : RAMAudioProvider)
    (hc : p.cancelled = true) (hrel : p.released = false) (hpc : p.pc ≠ DecoderPc.faulted)
    (n : Nat) (hn : 3 ≤ n) :
    (runDecoder n p).pc = DecoderPc.exited ∧
    (runDecoder n p).requests.length ≤ p.requests.length + 1 ∧
    (runDecoder n p).wroteAfterRelease = p.wroteAfterRelease := by
  have key : (runDecoder 3 p).pc = DecoderPc.exited ∧
      (runDecoder 3 p).requests.length ≤ p.requests.length + 1 ∧
      (runDecoder 3 p).wroteAfterRelease = p.wroteAfterRelease := by
    rcases hq : p.pc with _ | _ | _ | _ | _
    · simp [runDecoder, decoderStep, hq, hc]; split_ifs <;> simp
    · simp [runDecoder, decoderStep, hq, hc, hrel]; split_ifs <;> simp
    · simp [runDecoder, decoderStep, hq, hc]; split_ifs <;> simp
    · simp [runDecoder, decoderStep, hq]
    · exact absurd hq hpc
  obtain ⟨m, rfl⟩ : ∃ m, n = 3 + m := ⟨n - 3, by omega⟩
  rw [runDecoder_add, runDecoder_exited m key.1]
  exact key

theorem decoderStep_faulted {p : RAMAudioProvider} (h : p.pc = DecoderPc.faulted) :
    decoderStep p = p := by
  unfold decoderStep
  simp only [h]

theorem runDecoder_faulted (n : Nat) {p : RAMAudioProvider} (h : p.pc = DecoderPc.faulted) :
    runDecoder n p = p := by
  induction n with
  | zero => rfl
  | succ n ih => rw [runDecoder, decoderStep_faulted h, ih]

/-- C9, evaluated on the code: in the state `releasedInFlight` the cancellation flag is
set, one chunk is in flight (the decoder is about to call `GetAudio`), the buffer has been
deleted and the destructor is about to join.  The decoder's next step issues the decode
request and stores through the released buffer; it is then faulted and, however many
further steps it is given, it never exits, so `decoder.join()` never returns. -/
theorem cancelled_in_flight_chunk_faults_after_release :
    releasedInFlight.cancelled = true ∧
    releasedInFlight.pc = DecoderPc.getAudio ∧
    releasedInFlight.released = true ∧
    releasedInFlight.dtor = DtorPc.join ∧
    releasedInFlight.requests = [] ∧
    (decoderStep releasedInFlight).requests = [(0, 1)] ∧
    (decoderStep releasedInFlight).wroteAfterRelease = true ∧
    (∀ n : Nat, (runDecoder (n + 1) releasedInFlight).pc = DecoderPc.faulted) ∧
    (∀ n : Nat, (runDecoder n releasedInFlight).pc ≠ DecoderPc.exited) ∧
    (∀ n : Nat, (destructorStep (runDecoder n releasedInFlight)).dtor = DtorPc.join) := by
  have h1 : (decoderStep releasedInFlight).pc = DecoderPc.faulted := by decide
  have hrun : ∀ n : Nat, runDecoder (n + 1) releasedInFlight = decoderStep releasedInFlight :=
    fun n => by rw [runDecoder, runDecoder_faulted n h1]
  have hne : ∀ n : Nat, (runDecoder n releasedInFlight).pc ≠ DecoderPc.exited := by
    intro n
    cases n with
    | zero => decide
    | succ n => rw [hrun n, h1]; decide
  refine ⟨by decide, by decide, by decide, by decide, by decide, by decide, by decide, ?_,
    hne, ?_⟩
  · intro n
    rw [hrun n, h1]
  · intro n
    have hd : (runDecoder n releasedInFlight).dtor = DtorPc.join := by
      cases n with
      | zero => decide
      | succ n => rw [hrun n]; decide
    unfold destructorStep
    simp only [hd, hne n, if_false]

/-- One whole iteration of the loop body, started at the loop head with samples left and
the flag clear, as three steps of the decoder. -/
theorem runDecoder_iteration {p : RAMAudioProvider} (hpc : p.pc = DecoderPc.loopHead)
    (hlt : p.i < p.num_samples) (hc : p.cancelled = false) (hrel : p.released = false) :
    runDecoder 3 p =
      { p with
        actual_read := min p.actual_read (p.num_samples - p.i)
        buffer := writeBytes p.buffer (p.i * p.bytes_per_sample * p.channels)
          (p.source.GetAudio p.i (min p.actual_read (p.num_samples - p.i)))
        requests := p.requests ++ [(p.i, min p.actual_read (p.num_samples - p.i))]
        decoded_samples := p.decoded_samples + min p.actual_read (p.num_samples - p.i)
        i := p.i + min p.actual_read (p.num_samples - p.i)
        pc := DecoderPc.loopHead } := by
  simp [runDecoder, decoderStep, hpc, hlt, hc, hrel]

theorem decoderInv_runDecoder {src : AudioProvider} (n : Nat) :
    ∀ {p : RAMAudioProvider}, DecoderInv src p → DecoderInv src (runDecoder n p) := by
  induction n with
  | zero => intro p h; exact h
  | succ n ih => intro p h; exact ih (decoderInv_step h)

theorem runDecoder_completes (src : AudioProvider) (hnum : 0 ≤ src.num_samples) (m : Nat) :
    ∀ p : RAMAudioProvider, DecoderInv src p → p.pc = DecoderPc.loopHead →
      p.cancelled = false → ((src.num_samples - p.i + 2047) / 2048).toNat ≤ m →
      ∀ n : Nat, 3 * m + 1 ≤ n →
        (runDecoder n p).pc = DecoderPc.exited ∧
        (runDecoder n p).decoded_samples = src.num_samples ∧
        (runDecoder n p).requests.length =
          p.requests.length + ((src.num_samples - p.i + 2047) / 2048).toNat := by
  induction m with
  | zero =>
    intro p h hpc hc hm n hn
    have h1 := h.i_le
    have h2 := h.i_eq
    have h3 := h.num_eq
    have hge : ¬ p.i < p.num_samples := by omega
    obtain ⟨k, rfl⟩ : ∃ k, n = 1 + k := ⟨n - 1, by omega⟩
    have hstep : decoderStep p = { p with pc := DecoderPc.exited } := by
      unfold decoderStep
      simp only [hpc, hge, if_false]
    rw [runDecoder_add]
    have : runDecoder 1 p = { p with pc := DecoderPc.exited } := by
      rw [runDecoder, runDecoder, hstep]
    rw [this, runDecoder_exited k rfl]
    refine ⟨rfl, ?_, ?_⟩
    · show p.decoded_samples = src.num_samples
      omega
    · show p.requests.length = _
      omega
  | succ m ih =>
    intro p h hpc hc hm n hn
    have h1 := h.i_le
    have h2 := h.i_eq
    have h3 := h.num_eq
    have h4 := h.head hpc
    by_cases hlt : p.i < p.num_samples
    · obtain ⟨k, rfl⟩ : ∃ k, n = 3 + k := ⟨n - 3, by omega⟩
      have hinv : DecoderInv src (runDecoder 3 p) := decoderInv_runDecoder 3 h
      rw [runDecoder_add]
      have hit := runDecoder_iteration hpc hlt hc h.not_released
      have hi : (runDecoder 3 p).i = p.i + min p.actual_read (p.num_samples - p.i) := by
        rw [hit]
      have hr : (runDecoder 3 p).requests.length = p.requests.length + 1 := by
        rw [hit]; simp
      have hpc3 : (runDecoder 3 p).pc = DecoderPc.loopHead := by rw [hit]
      have hc3 : (runDecoder 3 p).cancelled = false := by rw [hit]; exact hc
      have := ih (runDecoder 3 p) hinv hpc3 hc3 (by rw [hi]; omega) k (by omega)
      rw [hi, hr] at this
      refine ⟨this.1, this.2.1, ?_⟩
      rw [this.2.2]
      omega
    · obtain ⟨k, rfl⟩ : ∃ k, n = 1 + k := ⟨n - 1, by omega⟩
      have hstep : decoderStep p = { p with pc := DecoderPc.exited } := by
        unfold decoderStep
        simp only [hpc, hlt, if_false]
      rw [runDecoder_add]
      have : runDecoder 1 p = { p with pc := DecoderPc.exited } := by
        rw [runDecoder, runDecoder, hstep]
      rw [this, runDecoder_exited k rfl]
      refine ⟨rfl, ?_, ?_⟩
      · show p.decoded_samples = src.num_samples
        omega
      · show p.requests.length = _
        omega

/-- C5: for a source with `num_samples ≥ 0` (decode modelled as a total function, so it
never fails), with the cancellation flag never set: each iteration of the fill loop returns
to the loop head with `num_samples - i` strictly smaller, and the loop exits after
`⌈num_samples / 2048⌉` chunks, three steps each plus the final loop test, with
`decoded_samples = num_samples`. -/
theorem fill_loop_terminates (src : AudioProvider) (hnum : 0 ≤ src.num_samples)
    (block : Int → Byte) :
    (∀ p : RAMAudioProvider, Reachable src p → p.pc = DecoderPc.loopHead →
      p.i < src.num_samples → p.cancelled = false →
        (runDecoder 3 p).pc = DecoderPc.loopHead ∧
        src.num_samples - (runDecoder 3 p).i < src.num_samples - p.i) ∧
    (∀ n : Nat, 3 * ((src.num_samples + 2047) / 2048).toNat + 1 ≤ n →
      (runDecoder n (RAMAudioProvider.fresh block src)).pc = DecoderPc.exited ∧
      (runDecoder n (RAMAudioProvider.fresh block src)).decoded_samples = src.num_samples ∧
      (runDecoder n (RAMAudioProvider.fresh block src)).requests.length =
        ((src.num_samples + 2047) / 2048).toNat) := by
  constructor
  · intro p hp hpc hlt hc
    have h := reachable_decoderInv hp
    have h3 := h.num_eq
    have h8 := h.read_pos
    rw [runDecoder_iteration hpc (by omega) hc h.not_released]
    refine ⟨rfl, ?_⟩
    show src.num_samples - (p.i + min p.actual_read (p.num_samples - p.i)) < _
    omega
  · intro n hn
    have := runDecoder_completes src hnum ((src.num_samples + 2047) / 2048).toNat
      (RAMAudioProvider.fresh block src) (decoderInv_fresh block src) rfl rfl
      (by show ((src.num_samples - 0 + 2047) / 2048).toNat ≤ _; simp) n hn
    refine ⟨this.1, this.2.1, ?_⟩
    rw [this.2.2]
    show 0 + ((src.num_samples - 0 + 2047) / 2048).toNat = _
    simp

/-- Witness for C5: the 100000-sample stereo 16-bit source of the scenario; 49 chunks. -/
theorem fill_loop_terminates_witness :
    (0 : Int) ≤ 100000 ∧
    (runDecoder 148 (RAMAudioProvider.fresh (fun _ => 0)
      (AudioProvider.ofPattern 100000 2 2 (fun _ => 0)))).decoded_samples = 100000 :=
  ⟨by decide,
    ((fill_loop_terminates (AudioProvider.ofPattern 100000 2 2 (fun _ => 0)) (by decide)
      (fun _ => 0)).2 148 (by decide)).2.1⟩

/-! ## Effect of one iteration on the buffer -/

theorem frame_mul_mono (x y : Int) (c b : Nat) (h : x ≤ y) :
    x * (c : Int) * (b : Int) ≤ y * (c : Int) * (b : Int) := by
  have hc : (0 : Int) ≤ c := Int.ofNat_nonneg c
  have hb : (0 : Int) ≤ b := Int.ofNat_nonneg b
  exact mul_le_mul_of_nonneg_right (mul_le_mul_of_nonneg_right h hc) hb

theorem frame_mul_nonneg (x : Int) (c b : Nat) (h : 0 ≤ x) :
    0 ≤ x * (c : Int) * (b : Int) := by
  positivity

theorem frame_mul_add (x y : Int) (c b : Nat) :
    (x + y) * (c : Int) * (b : Int) = x * (c : Int) * (b : Int) + y * (c : Int) * (b : Int) := by
  ring

theorem decoderStep_keeps_published {src : AudioProvider} {p : RAMAudioProvider}
    (h : DecoderInv src p) (a : Int)
    (ha : a < p.decoded_samples * src.channels * src.bytes_per_sample) :
    (decoderStep p).buffer a = p.buffer a := by
  unfold decoderStep
  rcases hpc : p.pc with _ | _ | _ | _ | _ <;>
    simp only [hpc, h.not_released, Bool.false_eq_true, if_false]
  · split_ifs <;> rfl
  · show writeBytes _ _ _ a = _
    apply writeBytes_outside
    left
    have e : p.i * (p.bytes_per_sample : Int) * (p.channels : Int)
        = p.decoded_samples * src.channels * src.bytes_per_sample := by
      rw [h.i_eq, h.bps_eq, h.channels_eq]; ring
    rw [e]
    exact ha

theorem runDecoder_keeps_published {src : AudioProvider} (n : Nat) :
    ∀ {p : RAMAudioProvider}, DecoderInv src p → ∀ a : Int,
      a < p.decoded_samples * src.channels * src.bytes_per_sample →
      (runDecoder n p).buffer a = p.buffer a := by
  induction n with
  | zero => intro p _ a _; rfl
  | succ n ih =>
    intro p h a ha
    have hmono := frame_mul_mono _ _ src.channels src.bytes_per_sample
      (decoderStep_decoded_le h)
    rw [runDecoder, ih (decoderInv_step h) a (lt_of_lt_of_le ha hmono),
      decoderStep_keeps_published h a ha]

/-- C8: an iteration of the fill loop begun at decoded count `d < num_samples` with the
cancellation flag clear issues exactly one decode request, for samples `[d, d+n)` with
`n = min(2048, num_samples - d) ≥ 1`; the buffer is not touched before the decode step and
`decoded_samples` stays `d` until the decode has been stored; the iteration changes no
buffer byte outside offsets `[d × channels × bytes_per_sample,
(d+n) × channels × bytes_per_sample)`, in particular none of a sample below `d`; it stores
the decoded chunk in that range and then advances `decoded_samples` by exactly `n`; and no
later step of the loop changes a byte below the new `decoded_samples`. -/
theorem fill_iteration_effect (src : AudioProvider) (hlen : src.ExactLength)
    (p : RAMAudioProvider) (hp : Reachable src p) (hpc : p.pc = DecoderPc.loopHead)
    (hd : p.decoded_samples < src.num_samples) (hc : p.cancelled = false) :
    ∃ n : Int, n = min 2048 (src.num_samples - p.decoded_samples) ∧ 1 ≤ n ∧
      (runDecoder 3 p).requests = p.requests ++ [(p.decoded_samples, n)] ∧
      (runDecoder 1 p).buffer = p.buffer ∧
      (runDecoder 1 p).decoded_samples = p.decoded_samples ∧
      (runDecoder 2 p).decoded_samples = p.decoded_samples ∧
      (runDecoder 3 p).buffer = (runDecoder 2 p).buffer ∧
      (runDecoder 3 p).decoded_samples = p.decoded_samples + n ∧
      (∀ a : Int, a < p.decoded_samples * src.channels * src.bytes_per_sample ∨
          (p.decoded_samples + n) * src.channels * src.bytes_per_sample ≤ a →
        (runDecoder 3 p).buffer a = p.buffer a) ∧
      (∀ k : Nat, (k : Int) < n * src.channels * src.bytes_per_sample →
        (src.GetAudio p.decoded_samples n)[k]? =
          some ((runDecoder 3 p).buffer
            (p.decoded_samples * src.channels * src.bytes_per_sample + k))) ∧
      (∀ (m : Nat) (a : Int),
        a < (p.decoded_samples + n) * src.channels * src.bytes_per_sample →
        (runDecoder (3 + m) p).buffer a = (runDecoder 3 p).buffer a) := by
  have h := reachable_decoderInv hp
  have h2 := h.num_eq
  have h5 := h.i_eq
  have h6 := h.i_nonneg
  have h10 := h.head hpc
  have hlt : p.i < p.num_samples := by omega
  have hn : min p.actual_read (p.num_samples - p.i)
      = min 2048 (src.num_samples - p.decoded_samples) := by omega
  have hit := runDecoder_iteration hpc hlt hc h.not_released
  rw [hn] at hit
  have h1 : runDecoder 1 p =
      { p with actual_read := min p.actual_read (p.num_samples - p.i),
               pc := DecoderPc.getAudio } := by
    simp [runDecoder, decoderStep, hpc, hlt, hc]
  have h2' : runDecoder 2 p =
      { p with
        actual_read := min 2048 (src.num_samples - p.decoded_samples)
        buffer := writeBytes p.buffer (p.i * p.bytes_per_sample * p.channels)
          (p.source.GetAudio p.i (min 2048 (src.num_samples - p.decoded_samples)))
        requests := p.requests ++ [(p.i, min 2048 (src.num_samples - p.decoded_samples))]
        pc := DecoderPc.publish } := by
    simp [runDecoder, decoderStep, hpc, hlt, hc, hn, h.not_released]
  have hoff : p.i * (p.bytes_per_sample : Int) * (p.channels : Int)
      = p.decoded_samples * src.channels * src.bytes_per_sample := by
    rw [h.i_eq, h.bps_eq, h.channels_eq]; ring
  have hL := hlen p.decoded_samples (min 2048 (src.num_samples - p.decoded_samples))
    (by omega)
  have hadd := frame_mul_add p.decoded_samples
    (min 2048 (src.num_samples - p.decoded_samples)) src.channels src.bytes_per_sample
  refine ⟨min 2048 (src.num_samples - p.decoded_samples), rfl, by omega, ?_, ?_, ?_, ?_, ?_,
    ?_, ?_, ?_, ?_⟩
  · rw [hit, h5]
  · rw [h1]
  · rw [h1]
  · rw [h2']
  · rw [hit, h2']
  · rw [hit]
  · intro a ha
    rw [hit]
    show writeBytes _ _ _ a = _
    apply writeBytes_outside
    rw [hoff, h.source_eq, h5, hL]
    omega
  · intro k hk
    rw [hit]
    show _ = some (writeBytes _ _ _ _)
    rw [hoff, h.source_eq, h5]
    exact writeBytes_inside _ _ _ _ (by omega)
  · intro m a ha
    rw [runDecoder_add]
    apply runDecoder_keeps_published m (decoderInv_runDecoder 3 h)
    rw [hit]
    exact ha

theorem ofPattern_exactLength (num : Int) (c b : Nat) (pattern : Int → Byte) :
    (AudioProvider.ofPattern num c b pattern).ExactLength := by
  intro s n hn
  have := frame_mul_nonneg n c b hn
  simp only [AudioProvider.ofPattern, List.length_map, List.length_range]
  omega

theorem ofPattern_getElem? (num : Int) (c b : Nat) (pattern : Int → Byte) (s n : Int) (k : Nat)
    (hk : (k : Int) < n * c * b) :
    ((AudioProvider.ofPattern num c b pattern).GetAudio s n)[k]? =
      some (pattern (s * c * b + k)) := by
  simp only [AudioProvider.ofPattern]
  rw [List.getElem?_map, List.getElem?_range (by omega)]
  rfl

theorem ofPattern_chunksAgree (num : Int) (c b : Nat) (pattern : Int → Byte) :
    (AudioProvider.ofPattern num c b pattern).ChunksAgree := by
  intro s n hs hn hr k hk
  have hr : s + n ≤ num := hr
  have hk : (k : Int) < n * c * b := hk
  have h0 := frame_mul_nonneg s c b hs
  have h1 := frame_mul_mono _ _ c b hr
  have h2 := frame_mul_add s n c b
  rw [ofPattern_getElem? num c b pattern s n k hk]
  show _ = ((AudioProvider.ofPattern num c b pattern).GetAudio 0 num)[
    (s * (c : Int) * (b : Int)).toNat + k]?
  rw [ofPattern_getElem? num c b pattern 0 num _ (by push_cast; omega)]
  congr 2
  push_cast
  omega

/-- Witness for C8: the first iteration on the 5000-sample stereo 16-bit mock source. -/
theorem fill_iteration_effect_witness :
    ((RAMAudioProvider.fresh (fun _ => 0) (mockSource 5000 2 2)).pc = DecoderPc.loopHead ∧
      (RAMAudioProvider.fresh (fun _ => 0) (mockSource 5000 2 2)).decoded_samples < 5000 ∧
      (RAMAudioProvider.fresh (fun _ => 0) (mockSource 5000 2 2)).cancelled = false) ∧
    ∃ n : Int, n = min 2048 (5000 - 0) ∧ 1 ≤ n ∧
      (runDecoder 3 (RAMAudioProvider.fresh (fun _ => 0) (mockSource 5000 2 2))).requests
        = [] ++ [(0, n)] :=
  ⟨⟨rfl, by decide, rfl⟩,
    (fill_iteration_effect (mockSource 5000 2 2) (ofPattern_exactLength _ _ _ _)
      (RAMAudioProvider.fresh (fun _ => 0) (mockSource 5000 2 2))
      (Reachable.init (fun _ => 0)) rfl (by decide) rfl).imp
      (fun _ h => ⟨h.1, h.2.1, h.2.2.1⟩)⟩

/-! ## Reads of published samples -/

theorem decodedAgree_fresh (block : Int → Byte) (src : AudioProvider) :
    DecodedAgree src (RAMAudioProvider.fresh block src) := by
  intro k hk
  simp [decodedExtent, RAMAudioProvider.fresh] at hk
  omega

theorem decodedAgree_cancel {src : AudioProvider} {p : RAMAudioProvider}
    (h : DecodedAgree src p) : DecodedAgree src (setCancelled p) := h

theorem decodedAgree_step {src : AudioProvider} (hlen : src.ExactLength)
    (hagree : src.ChunksAgree) {p : RAMAudioProvider} (hinv : DecoderInv src p)
    (h : DecodedAgree src p) : DecodedAgree src (decoderStep p) := by
  have h1 := hinv.source_eq
  have h5 := hinv.i_eq
  have h6 := hinv.i_nonneg
  have h8 := hinv.read_pos
  have h12 := hinv.not_released
  rcases hpc : p.pc with _ | _ | _ | _ | _
  · intro k hk
    have hb : (decoderStep p).buffer = p.buffer := by
      unfold decoderStep; simp only [hpc]; split_ifs <;> rfl
    have hs : (decoderStep p).pc ≠ DecoderPc.publish ∧
        (decoderStep p).decoded_samples = p.decoded_samples := by
      unfold decoderStep; simp only [hpc]; split_ifs <;> exact ⟨by simp, rfl⟩
    have he : decodedExtent (decoderStep p) = decodedExtent p := by
      unfold decodedExtent; rw [if_neg hs.1, hs.2, hpc]; simp
    rw [hb]
    exact h k (by rw [← he]; exact hk)
  · have hbody := hinv.body (Or.inl hpc)
    have hL := hlen p.i p.actual_read (le_of_lt h8)
    have hoff : p.i * (p.bytes_per_sample : Int) * (p.channels : Int)
        = p.i * src.channels * src.bytes_per_sample := by
      rw [hinv.bps_eq, hinv.channels_eq]; ring
    have hsb : (decoderStep p).buffer =
        writeBytes p.buffer (p.i * src.channels * src.bytes_per_sample)
          (src.GetAudio p.i p.actual_read) := by
      unfold decoderStep; simp only [hpc, h12, Bool.false_eq_true, if_false]; rw [hoff, h1]
    have he : decodedExtent (decoderStep p) = p.i + p.actual_read := by
      unfold decodedExtent decoderStep; simp [hpc, h12]
    have hold : decodedExtent p = p.i := by
      unfold decodedExtent; simp [hpc, h5]
    have h0 := frame_mul_nonneg p.i src.channels src.bytes_per_sample h6
    have hadd := frame_mul_add p.i p.actual_read src.channels src.bytes_per_sample
    intro k hk
    rw [he] at hk
    rw [hsb]
    by_cases hlow : (k : Int) < p.i * src.channels * src.bytes_per_sample
    · rw [writeBytes_outside _ _ _ _ (Or.inl hlow)]
      exact h k (by rw [hold]; exact hlow)
    · obtain ⟨j, hj⟩ : ∃ j : Nat,
          (k : Int) = p.i * src.channels * src.bytes_per_sample + j :=
        ⟨(k - p.i * src.channels * src.bytes_per_sample).toNat, by omega⟩
      have hjlt : (j : Int) < p.actual_read * src.channels * src.bytes_per_sample := by omega
      have hkj : k = (p.i * (src.channels : Int) * (src.bytes_per_sample : Int)).toNat + j := by
        omega
      have hc := hagree p.i p.actual_read h6 (le_of_lt h8) (by omega) j hjlt
      rw [hj, ← writeBytes_inside _ _ _ j (by omega), hc, hkj]
  · intro k hk
    have hb : (decoderStep p).buffer = p.buffer := by
      unfold decoderStep; simp only [hpc]
    have he : decodedExtent (decoderStep p) = decodedExtent p := by
      unfold decodedExtent decoderStep; simp [hpc, h5]
    rw [hb]
    exact h k (by rw [← he]; exact hk)
  · rw [decoderStep_exited hpc]
    exact h
  · rw [decoderStep_faulted hpc]
    exact h

theorem reachable_decodedAgree {src : AudioProvider} (hlen : src.ExactLength)
    (hagree : src.ChunksAgree) {p : RAMAudioProvider} (hp : Reachable src p) :
    DecodedAgree src p := by
  induction hp with
  | init block => exact decodedAgree_fresh block src
  | step hq ih => exact decodedAgree_step hlen hagree (reachable_decoderInv hq) ih
  | cancel _ ih => exact decodedAgree_cancel ih

/-- C1: for a source whose decode is a pure function storing exactly the requested number
of bytes and whose chunk decodes agree with its whole-stream decode, in every state
reachable from the freshly constructed cache by steps of the fill loop, and for every
`start ≥ 0` and `count ≥ 0` with `start + count ≤ decoded_samples`,
`FillBuffer(buf, start, count)` yields exactly the `count × channels × bytes_per_sample`
bytes that a direct decode of samples `[start, start+count)` from the source yields. -/
theorem FillBuffer_matches_direct_decode (src : AudioProvider) (hlen : src.ExactLength)
    (hagree : src.ChunksAgree) (p : RAMAudioProvider) (hp : Reachable src p)
    (start count : Int) (hs : 0 ≤ start) (hc : 0 ≤ count)
    (hr : start + count ≤ p.decoded_samples) :
    RAMAudioProvider.FillBuffer p start count = Except.ok (src.GetAudio start count) ∧
    ((src.GetAudio start count).length : Int) = count * src.channels * src.bytes_per_sample := by
  have hinv := reachable_decoderInv hp
  have hda := reachable_decodedAgree hlen hagree hp
  have h5 := hinv.i_eq
  have h7 := hinv.i_le
  have h8 := hinv.read_pos
  have hL := hlen start count hc
  refine ⟨?_, hL⟩
  unfold RAMAudioProvider.FillBuffer
  rw [hinv.source_eq]
  congr 1
  apply List.ext_getElem?
  intro k
  have hnn := frame_mul_nonneg count src.channels src.bytes_per_sample hc
  have h0 := frame_mul_nonneg start src.channels src.bytes_per_sample hs
  by_cases hk : (k : Int) < count * src.channels * src.bytes_per_sample
  · have hcpos : 0 < count := by
      by_contra hneg
      have hz : count = 0 := by omega
      rw [hz, zero_mul, zero_mul] at hk
      omega
    have hext : p.decoded_samples ≤ decodedExtent p := by
      unfold decodedExtent
      split_ifs <;> omega
    have hmono := frame_mul_mono _ _ src.channels src.bytes_per_sample (le_trans hr hext)
    have hadd := frame_mul_add start count src.channels src.bytes_per_sample
    rw [memcpy_getElem? _ _ _ _ (by omega),
      hagree start count hs hc (by omega) k hk,
      hda _ (by push_cast; omega)]
    congr 2
    push_cast
    omega
  · rw [List.getElem?_eq_none (by rw [memcpy_length]; omega),
      List.getElem?_eq_none (by omega)]

/-- Witness for C1: the scenario `total_samples = 100000`, `channels = 2`,
`bytes_per_sample = 2`, mock source, cache fully decoded (148 decoder steps),
`Read(buf, 50000, 1000)`. -/
theorem FillBuffer_matches_direct_decode_witness :
    ((0 : Int) ≤ 50000 ∧ (0 : Int) ≤ 1000 ∧
      (50000 : Int) + 1000 ≤
        (runDecoder 148 (RAMAudioProvider.fresh (fun _ => 0)
          (mockSource 100000 2 2))).decoded_samples) ∧
    RAMAudioProvider.FillBuffer
        (runDecoder 148 (RAMAudioProvider.fresh (fun _ => 0) (mockSource 100000 2 2)))
        50000 1000 =
      Except.ok ((mockSource 100000 2 2).GetAudio 50000 1000) :=
  have hd : (runDecoder 148 (RAMAudioProvider.fresh (fun _ => 0)
      (mockSource 100000 2 2))).decoded_samples = 100000 :=
    (runDecoder_completes (mockSource 100000 2 2) (by decide) 49
      (RAMAudioProvider.fresh (fun _ => 0) (mockSource 100000 2 2))
      (decoderInv_fresh _ _) rfl rfl (by decide) 148 (by decide)).2.1
  ⟨⟨by decide, by decide, by rw [hd]; decide⟩,
    (FillBuffer_matches_direct_decode (mockSource 100000 2 2)
      (ofPattern_exactLength _ _ _ _) (ofPattern_chunksAgree _ _ _ _)
      (runDecoder 148 (RAMAudioProvider.fresh (fun _ => 0) (mockSource 100000 2 2)))
      (reachable_runDecoder 148 (Reachable.init (fun _ => 0)))
      50000 1000 (by decide) (by decide) (by rw [hd]; decide)).1⟩

/-! ## Destructor racing the decoder -/

/-- C7, evaluated on the code: with a one-sample source, let the decoder pass its
`if (cancelled) break;` test, then let the destructor execute `cancelled = true` and
`delete buffer`, then let the decoder go on: it calls `GetAudio` and stores the chunk
through `buffer` after the buffer has been released. -/
theorem decoder_writes_after_release :
    (runSchedule [Actor.decoder, Actor.destructor, Actor.destructor, Actor.decoder]
      (RAMAudioProvider.fresh (fun _ => 0) (mockSource 1 1 1))).wroteAfterRelease = true ∧
    (runSchedule [Actor.decoder, Actor.destructor, Actor.destructor, Actor.decoder]
      (RAMAudioProvider.fresh (fun _ => 0) (mockSource 1 1 1))).requests = [(0, 1)] ∧
    (runSchedule [Actor.decoder, Actor.destructor, Actor.destructor]
      (RAMAudioProvider.fresh (fun _ => 0) (mockSource 1 1 1))).released = true ∧
    (runSchedule [Actor.decoder, Actor.destructor, Actor.destructor]
      (RAMAudioProvider.fresh (fun _ => 0) (mockSource 1 1 1))).requests = [] := by
  decide

/-! ## Horizon-plot renderer buffer -/

/-- C10, evaluated on the code: with one channel, two bytes per sample and
`pixel_samples = 1/4`, `Render` allocates `⌊1/4 × 1 × 2 + 1⌋ = 1` byte, while `to` is
bumped from 0 to 1 and `GetAudio(audio_buffer, from, 1)` stores `1 × 1 × 2 = 2` bytes. -/
theorem horizonplot_buffer_too_small :
    (0 : ℚ) < 1 / 4 ∧
    buffer_needed (1 / 4) 1 2 = 1 ∧
    renderTo (1 / 4) = 1 ∧
    renderBytesWritten (1 / 4) 1 2 = 2 ∧
    buffer_needed (1 / 4) 1 2 < renderBytesWritten (1 / 4) 1 2 := by
  have hb : buffer_needed (1 / 4) 1 2 = 1 := by
    unfold buffer_needed truncate
    norm_num
  have ht : renderTo (1 / 4) = 1 := by
    unfold renderTo truncate
    norm_num
  have hw : renderBytesWritten (1 / 4) 1 2 = 2 := by
    unfold renderBytesWritten
    rw [ht]
    norm_num
  refine ⟨by norm_num, hb, ht, hw, ?_⟩
  rw [hb, hw]
  decide

/-- For `pixel_samples ≥ 1` the allocation does cover the bytes stored by each read. -/
theorem horizonplot_buffer_covers_of_one_le (pixel_samples : ℚ) (channels : Nat)
    (h1 : 1 ≤ pixel_samples) :
    renderBytesWritten pixel_samples channels 2 ≤ buffer_needed pixel_samples channels 2 := by
  have hpos : (0 : ℚ) ≤ pixel_samples := le_trans zero_le_one h1
  have hfl : 1 ≤ ⌊pixel_samples⌋ := Int.le_floor.mpr (by exact_mod_cast h1)
  have hc : (0 : ℚ) ≤ (channels : ℚ) := Nat.cast_nonneg channels
  unfold renderBytesWritten buffer_needed renderTo truncate
  rw [if_pos hpos, if_pos (by positivity)]
  simp only [if_neg (show ¬ ⌊pixel_samples⌋ = 0 by omega), add_zero]
  apply Int.le_floor.mpr
  push_cast
  have hle : ((⌊pixel_samples⌋ : Int) : ℚ) ≤ pixel_samples := Int.floor_le pixel_samples
  nlinarith [mul_le_mul_of_nonneg_right hle hc]

end Aegisub
